import Mathlib

/-!
Verification development for the stream-URL updater
(`.github/scripts/update_streams.py`).

Strings are modelled as `List Char` (one entry per Python character).
The script's own functions (`strip_url_parameters`, the request observer,
the page-content scan, URL selection, and `update_m3u_file`) are embedded
directly from the source.  The script calls `urllib.parse.urlparse` /
`urlunparse` from the Python standard library; those are embedded below
following the CPython (3.12) implementation of `urllib/parse.py`,
restricted to what the script exercises (`allow_fragments` left at its
default, string inputs).  Validation-only steps of `urlsplit` that can
only raise exceptions and never alter the returned components (the
bracketed-IPv6 host check and the NFKC netloc check) are not modelled.
-/

namespace StreamUpdate

/-! ## Model of `urllib.parse` (CPython 3.12)

`urlsplit` first removes leading WHATWG C0-control/space characters and
deletes every tab, carriage return and line feed; then it detects a
scheme (`<alpha> <scheme chars>* ':'`, lowercased), a netloc (after a
leading `//`, up to the first `/`, `?` or `#`), a fragment (after the
first `#`) and a query (after the first `?`).  `urlparse` additionally
splits `;params` from the last path segment.  `urlunparse` reassembles.
-/

/-- The characters of `urllib.parse.scheme_chars`
(ASCII letters, digits, and the three characters plus, dash, dot). -/
def schemeChars : List Char :=
  ("abcdefghijklmnopqrstuvwxyzABCDEFGHIJKLMNOPQRSTUVWXYZ0123456789+-.").toList

/-- Membership in `scheme_chars`. -/
def isSchemeChar (c : Char) : Bool := schemeChars.contains c

/-- Scheme detection of `urlsplit`: if the text before the first `:` is a
non-empty run of scheme characters starting with an ASCII letter, the
lowercased run is the scheme and the rest follows the colon. -/
def schemeSplit (url : List Char) : Option (List Char × List Char) :=
  match url.takeWhile (· != ':'), url.dropWhile (· != ':') with
  | c :: pre', _ :: rest =>
    if (c.toNat ≤ 127 : Bool) && c.isAlpha && (c :: pre').all isSchemeChar then
      some ((c :: pre').map Char.toLower, rest)
    else none
  | _, _ => none

/-- Python's substring test `needle in hay` on strings. -/
def substrB (needle : List Char) : List Char → Bool
  | [] => needle.isEmpty
  | l@(_ :: t) => needle.isPrefixOf l || substrB needle t

/-- The manifest marker looked for by the request observer. -/
def m3u8Marker : List Char := (".m3u8").toList

/-- Embedding of the `handle_request` observer (lines 61-64): append the
request URL to the candidate list whenever it contains `.m3u8`
(unconditionally — there is no membership test on this channel). -/
def handle_request (m3u8_urls : List (List Char)) (requestUrl : List Char) : List (List Char) :=
  if substrB m3u8Marker requestUrl then m3u8_urls ++ [requestUrl] else m3u8_urls

/-- Case-insensitive character equality, as produced by `re.IGNORECASE`
on the ASCII characters appearing in the scan patterns. -/
def ciEq (a b : Char) : Bool := a.toLower == b.toLower

/-- Case-insensitive prefix test for the literal parts of the scan patterns. -/
def ciIsPfx : List Char → List Char → Bool
  | [], _ => true
  | _ :: _, [] => false
  | a :: as, b :: bs => ciEq a b && ciIsPfx as bs

/-- Whether `.m3u8` occurs (case-insensitively) at some position of `l`. -/
def hasM3u8CI : List Char → Bool
  | [] => false
  | l@(_ :: t) => ciIsPfx ((".m3u8").toList) l || hasM3u8CI t

/-- Python's `\s` class, restricted to ASCII whitespace (space, tab,
newline, carriage return, vertical tab, form feed).  Python `str`
patterns additionally treat Unicode whitespace (e.g. U+00A0) as `\s`;
the model and the program agree on ASCII content. -/
def isSpaceRe (c : Char) : Bool :=
  c == ' ' || c == '\t' || c == '\n' || c == '\r' || c == '\x0b' || c == '\x0c'

/-- The character class `[^\s"\'<>]` of the first scan pattern. -/
def allowedBare (c : Char) : Bool :=
  !(isSpaceRe c || c == '"' || c == '\'' || c == '<' || c == '>')

/-- Match of pattern 1, `https?://[^\s"\'<>]+\.m3u8[^\s"\'<>]*`, anchored
at the head of `l`; returns the matched text and the remainder after it.
The greedy classes cannot cross a disallowed character, so a match runs
from the `http` prefix to the end of the maximal allowed-character run,
and exists iff `.m3u8` occurs in that run after at least one character. -/
def matchBareAt (l : List Char) : Option (List Char × List Char) :=
  let tryPfx (pfx : List Char) : Option (List Char × List Char) :=
    if ciIsPfx pfx l then
      let afterP := l.drop pfx.length
      let run := afterP.takeWhile allowedBare
      match run with
      | [] => none
      | _ :: rt =>
        if hasM3u8CI rt then some (l.take pfx.length ++ run, afterP.drop run.length) else none
    else none
  match tryPfx (("https://").toList) with
  | some r => some r
  | none => tryPfx (("http://").toList)

/-- Strip a case-insensitive `https://` or `http://` prefix (the `https?`
alternative tried greedily first, as the regex engine does). -/
def stripHttpCI (l : List Char) : Option (List Char) :=
  if ciIsPfx (("https://").toList) l then some (l.drop 8)
  else if ciIsPfx (("http://").toList) l then some (l.drop 7)
  else none

/-- Match of the quoted patterns 2 and 3,
`q(https?://[^q]+\.m3u8[^q]*)q` for a quote character `q`, anchored at the
head of `l`; returns the captured group (the text between the quotes) and
the remainder after the closing quote. -/
def matchQuotedAt (q : Char) (l : List Char) : Option (List Char × List Char) :=
  match l with
  | [] => none
  | c :: t =>
    if c == q then
      let run := t.takeWhile (· != q)
      match t.drop run.length with
      | [] => none
      | _ :: afterQ =>
        match stripHttpCI run with
        | some body =>
          match body with
          | [] => none
          | _ :: bt => if hasM3u8CI bt then some (run, afterQ) else none
        | none => none
    else none

/-- Driver for `re.findall`: try a match at every position from left to
right, continuing after the end of each match (non-overlapping).  The
fuel starts at the length of the input and bounds the recursion; every
step consumes at least one character, so it never runs out early. -/
def findAllAux (m : List Char → Option (List Char × List Char)) :
    Nat → List Char → List (List Char)
  | 0, _ => []
  | _ + 1, [] => []
  | fuel + 1, l@(_ :: t) =>
    match m l with
    | some (g, rest) => g :: findAllAux m fuel rest
    | none => findAllAux m fuel t

/-- All matches of one pattern in `content`. -/
def findAllPat (m : List Char → Option (List Char × List Char)) (content : List Char) :
    List (List Char) :=
  findAllAux m content.length content

/-- The trailing-punctuation trim `re.sub(r'["\',;)\]}]+$', "", url_match)`
(line 88). -/
def isTrailTrim (c : Char) : Bool :=
  c == '"' || c == '\'' || c == ',' || c == ';' || c == ')' || c == ']' || c == '\x7d'

/-- Remove the maximal trailing run of trim characters.  Python's `$`
also matches just before a final newline, so a match ending in trim
characters followed by one `\n` would additionally be trimmed there;
the model and the program agree on matches that do not end in a
newline. -/
def trimTrailing (m : List Char) : List Char :=
  (m.reverse.dropWhile isTrailTrim).reverse

/-- The scan matches of the three patterns applied in order to the page
content, each trimmed (lines 77-88). -/
def scanMatches (content : List Char) : List (List Char) :=
  (findAllPat matchBareAt content
    ++ findAllPat (matchQuotedAt '"') content
    ++ findAllPat (matchQuotedAt '\'') content).map trimTrailing

/-- Append one scanned URL if it is not already present (line 89-90). -/
def scanAppend (urls : List (List Char)) (m : List Char) : List (List Char) :=
  if m ∈ urls then urls else urls ++ [m]

/-- The content-scan phase: fold every trimmed match into the candidate
list, skipping the ones already present. -/
def scanContent (urls : List (List Char)) (content : List Char) : List (List Char) :=
  (scanMatches content).foldl scanAppend urls

/-- Selection (lines 97-109): empty list gives `none`; a truthy preferred
domain returns the first candidate containing it as a substring, falling
back to the first candidate; otherwise the first candidate. -/
def selectUrl (urls : List (List Char)) (pref : Option (List Char)) : Option (List Char) :=
  match urls with
  | [] => none
  | first :: _ =>
    match pref with
    | some d =>
      if d != [] then
        match urls.find? (fun u => substrB d u) with
        | some u => some u
        | none => some first
      else some first
    | none => some first

/-- Outcome of the `page.goto` navigation: success hands the rendered
content to the scan; a `PlaywrightTimeoutError` carries the content the
page had when the timeout fired, which the code never reads (the scan
sits after `goto` inside the same `try` block). -/
inductive NavOutcome
  | ok (content : List Char)
  | timeout (content : List Char)

/-- Embedding of `extract_m3u8_from_page` (lines 37-112) over one session:
`requests` are the URLs seen by the observer in order; on success the
rendered content is scanned for further candidates, on timeout the scan
is skipped; selection reduces the list to one URL or `none`. -/
def extract_m3u8_from_page (requests : List (List Char)) (nav : NavOutcome)
    (preferredDomain : Option (List Char)) : Option (List Char) :=
  let netUrls := requests.foldl handle_request []
  let candidates :=
    match nav with
    | NavOutcome.ok content => scanContent netUrls content
    | NavOutcome.timeout _ => netUrls
  selectUrl candidates preferredDomain

/-! ## Playlist patching (`update_m3u_file`, update_streams.py lines 112-152)

The pattern is `(#EXTINF:[^\n]*,NAME\n)(https?://[^\n]+)` with `NAME` the
`re.escape`d entry name, searched with `re.search` and rewritten with
`re.sub` and the template `\g<1>` followed by the new URL.  `re.sub`
replaces every non-overlapping occurrence (no `count` argument is
passed).  Python expands the replacement template, so a backslash inside
`new_url` would be interpreted as a group reference or escape (or raise
`re.error`, turned into `sys.exit(1)` by the enclosing `except`); the
model appends `newUrl` literally, which agrees with the program exactly
on backslash-free replacement URLs, and every theorem about the
substituted output carries that hypothesis. -/

/-- The literal `#EXTINF:` head of the pattern. -/
def extinfTag : List Char := ("#EXTINF:").toList

/-- Backtracking search for the split of `[^\n]*,NAME\n` at the start of
`afterTag`: the largest `k` (the regex class is greedy) such that the
first `k` characters contain no newline and `,NAME\n` follows them.
Because the target contains a newline, at most one `k` can succeed. -/
def midSplitAux (afterTag target : List Char) : Nat → Option Nat
  | 0 => if target.isPrefixOf afterTag then some 0 else none
  | k + 1 =>
    if (afterTag.take (k + 1)).all (· != '\n') && target.isPrefixOf (afterTag.drop (k + 1)) then
      some (k + 1)
    else midSplitAux afterTag target k

/-- Greedy split search starting from the longest newline-free prefix. -/
def midSplit (afterTag target : List Char) : Option Nat :=
  midSplitAux afterTag target (afterTag.takeWhile (· != '\n')).length

/-- Match of group 2, `https?://[^\n]+`, at the head of `l`: the length of
the matched text (the `https?` alternative is tried greedily, and the
final class needs at least one non-newline character). -/
def matchUrlLine (l : List Char) : Option Nat :=
  if (("https://").toList).isPrefixOf l then
    let t := (l.drop 8).takeWhile (· != '\n')
    if t.length == 0 then none else some (8 + t.length)
  else if (("http://").toList).isPrefixOf l then
    let t := (l.drop 7).takeWhile (· != '\n')
    if t.length == 0 then none else some (7 + t.length)
  else none

/-- Match of the whole pattern anchored at the head of `l`: returns
`(group 1, group 2, rest after the match)`. -/
def patMatchAt (name l : List Char) : Option (List Char × List Char × List Char) :=
  if extinfTag.isPrefixOf l then
    match midSplit (l.drop 8) (',' :: (name ++ ['\n'])) with
    | some k =>
      match matchUrlLine (l.drop (8 + k + 1 + name.length + 1)) with
      | some g2len =>
        some (l.take (8 + k + 1 + name.length + 1),
              (l.drop (8 + k + 1 + name.length + 1)).take g2len,
              l.drop (8 + k + 1 + name.length + 1 + g2len))
      | none => none
    | none => none
  else none

/-- Embedding of `re.search` for the pattern: the leftmost match, as
`(text before the match, group 1, group 2, rest after the match)`. -/
def findMatch (name : List Char) : List Char → Option (List Char × List Char × List Char × List Char)
  | [] => none
  | l@(c :: t) =>
    match patMatchAt name l with
    | some (g1, g2, rest) => some ([], g1, g2, rest)
    | none =>
      match findMatch name t with
      | some (pre, g1, g2, rest) => some (c :: pre, g1, g2, rest)
      | none => none

/-- Embedding of `re.sub` with replacement `\g<1>` plus `newUrl`: every
non-overlapping match, scanned left to right, is replaced by its group 1
followed by `newUrl`.  Fuel bounds the recursion as in `findAllAux`. -/
def subAllAux (name newUrl : List Char) : Nat → List Char → List Char
  | 0, l => l
  | _ + 1, [] => []
  | fuel + 1, l@(c :: t) =>
    match patMatchAt name l with
    | some (g1, _, rest) => g1 ++ newUrl ++ subAllAux name newUrl fuel rest
    | none => c :: subAllAux name newUrl fuel t

/-- All-occurrence substitution over the whole content. -/
def subAll (name newUrl content : List Char) : List Char :=
  subAllAux name newUrl content.length content

/-- Embedding of `update_m3u_file` (lines 112-152) as a pure function on
the file content: the returned pair is (content on disk after the call,
returned boolean).  No entry, or an entry whose URL already equals
`new_url`, leaves the file unwritten and returns `False`; otherwise the
substituted content is written and `True` is returned. -/
def update_m3u_file (content newUrl entryName : List Char) : List Char × Bool :=
  match findMatch entryName content with
  | none => (content, false)
  | some (_, _, old_url, _) =>
    if old_url == newUrl then (content, false)
    else (subAll entryName newUrl content, true)

/-! ## Theorems -/

/-- The empty needle is a substring of everything (`"" in s` is `True`). -/
theorem substrB_nil (u : List Char) : substrB [] u = true := by
  cases u <;> simp [substrB, List.isPrefixOf]

/-- Claim C1, counterexample: the network-request observer appends without
a membership test, so one collection session in which the observer fires
twice with the same URL (and the content scan finds nothing) ends with
two entries of identical URL text in the candidate list. -/
theorem network_duplicate_counterexample :
    ¬ (scanContent
        (handle_request (handle_request [] (("http://a/x.m3u8").toList))
          (("http://a/x.m3u8").toList))
        []).Nodup := by decide

/-- Claim C1, amended: URLs appended by the content scan are deduplicated
against the whole list, so the candidate list stays duplicate-free
whenever the network phase alone produced no duplicate. -/
theorem scanContent_preserves_nodup (urls : List (List Char)) (content : List Char)
    (h : urls.Nodup) : (scanContent urls content).Nodup := by
  unfold scanContent
  generalize scanMatches content = ms
  induction ms generalizing urls with
  | nil => simpa using h
  | cons m t ih =>
    simp only [List.foldl_cons]
    apply ih
    unfold scanAppend
    split
    · exact h
    · rename_i hm
      simp [List.nodup_append, h, hm]

/-- Witness for `scanContent_preserves_nodup` at a concrete session. -/
theorem scanContent_preserves_nodup_witness :
    (scanContent [("http://a/x.m3u8").toList] (("no links here").toList)).Nodup :=
  scanContent_preserves_nodup [("http://a/x.m3u8").toList] (("no links here").toList) (by decide)

/-- Claim C2, counterexample: `re.sub` is called without a count, so a file
with two entries named `A` has BOTH URL lines rewritten; the output
differs from the claimed output in which only the first occurrence
changes. -/
theorem patch_rewrites_all_duplicates_counterexample :
    update_m3u_file (("#EXTINF:-1,A\nhttp://u1\n#EXTINF:-1,A\nhttp://u2\n").toList)
      (("http://new").toList) (("A").toList)
    = ((("#EXTINF:-1,A\nhttp://new\n#EXTINF:-1,A\nhttp://new\n").toList), true)
  ∧ (("#EXTINF:-1,A\nhttp://new\n#EXTINF:-1,A\nhttp://new\n").toList)
    ≠ (("#EXTINF:-1,A\nhttp://new\n#EXTINF:-1,A\nhttp://u2\n").toList) := by decide

/-- Claim C3, counterexample: when navigation times out, the content scan
is skipped (it sits after `goto` inside the same `try`), so a session
with no captured requests returns `None` even though scanning the
rendered content would have produced a URL. -/
theorem timeout_skips_content_scan_counterexample :
    extract_m3u8_from_page [] (NavOutcome.timeout (("\"https://a/x.m3u8\"").toList)) none = none
  ∧ selectUrl (scanContent [] (("\"https://a/x.m3u8\"").toList)) none
      = some (("https://a/x.m3u8").toList) := by decide

/-- Claim C3, amended: a navigation timeout is non-fatal — the session
still returns a value, computed by selection over exactly the
network-observed candidates captured before the timeout; the static
content scan does not run on this path. -/
theorem extract_timeout_uses_network_candidates (requests : List (List Char))
    (content : List Char) (pref : Option (List Char)) :
    extract_m3u8_from_page requests (NavOutcome.timeout content) pref
    = selectUrl (requests.foldl handle_request []) pref := rfl

/-- Claim C4, counterexample: an absent entry and an entry found with an
identical URL produce literally the same caller-visible result
(unchanged content, `False`); the two conditions are not distinguished
in what the function returns. -/
theorem notfound_signal_counterexample :
    update_m3u_file (("#EXTINF:-1,B\nhttp://u\n").toList) (("http://u").toList) (("A").toList)
      = ((("#EXTINF:-1,B\nhttp://u\n").toList), false)
  ∧ update_m3u_file (("#EXTINF:-1,A\nhttp://u\n").toList) (("http://u").toList) (("A").toList)
      = ((("#EXTINF:-1,A\nhttp://u\n").toList), false)
  ∧ findMatch (("A").toList) (("#EXTINF:-1,B\nhttp://u\n").toList) = none
  ∧ findMatch (("A").toList) (("#EXTINF:-1,A\nhttp://u\n").toList)
      = some ([], ("#EXTINF:-1,A\n").toList, ("http://u").toList, ['\n']) := by decide

/-- Claim C4, amended: when no entry matches, the patch returns the input
content unchanged together with `changed = false` — the same
caller-visible signal as the found-but-identical case; the conditions
differ only in diagnostic output. -/
theorem patch_notfound_returns_unchanged (content newUrl entryName : List Char)
    (h : findMatch entryName content = none) :
    update_m3u_file content newUrl entryName = (content, false) := by
  unfold update_m3u_file
  rw [h]

/-- Witness for `patch_notfound_returns_unchanged` on a concrete file. -/
theorem patch_notfound_returns_unchanged_witness :
    update_m3u_file (("#EXTINF:-1,B\nhttp://u\n").toList) (("http://v").toList) (("A").toList)
    = ((("#EXTINF:-1,B\nhttp://u\n").toList), false) :=
  patch_notfound_returns_unchanged _ _ _ (by decide)

/-- Claim C5: selection returns `none` on the empty list; with a preferred
domain that some candidate contains, the first such candidate in
collected order; otherwise the first candidate. -/
theorem selectUrl_spec (urls : List (List Char)) (pref : Option (List Char)) :
    selectUrl [] pref = none
  ∧ (∀ d, pref = some d → (∃ u ∈ urls, substrB d u) →
      selectUrl urls pref = urls.find? (fun u => substrB d u))
  ∧ ((pref = none ∨ ∃ d, pref = some d ∧ ∀ u ∈ urls, ¬ substrB d u) →
      selectUrl urls pref = urls.head?) := by
  refine ⟨rfl, ?_, ?_⟩
  · intro d hd hex
    subst hd
    obtain ⟨u, hu, hsub⟩ := hex
    match urls, hu with
    | first :: rest, hu =>
      by_cases hdnil : d = []
      · subst hdnil
        simp [selectUrl, List.find?, substrB_nil]
      · have hfind : ((first :: rest).find? (fun u => substrB d u)).isSome :=
          List.find?_isSome.mpr ⟨u, hu, hsub⟩
        match hf : (first :: rest).find? (fun u => substrB d u) with
        | some v => simp [selectUrl, hf, hdnil]
        | none => rw [hf] at hfind; simp at hfind
  · intro h
    match urls with
    | [] => cases pref <;> rfl
    | first :: rest =>
      rcases h with h | ⟨d, hd, hall⟩
      · subst h; rfl
      · subst hd
        by_cases hdnil : d = []
        · subst hdnil
          exact absurd (by simp [substrB_nil]) (hall first (by simp))
        · have hfind : (first :: rest).find? (fun u => substrB d u) = none :=
            List.find?_eq_none.mpr (by intro x hx; simpa using hall x hx)
          simp [selectUrl, hfind, hdnil]

/-- Witness for `selectUrl_spec`: the preferred-domain clause picks the
second candidate when only it contains the domain. -/
theorem selectUrl_spec_witness :
    selectUrl [("http://a/x.m3u8").toList, ("http://b/y.m3u8").toList] (some (("b/").toList))
    = some (("http://b/y.m3u8").toList) := by
  have h := (selectUrl_spec [("http://a/x.m3u8").toList, ("http://b/y.m3u8").toList]
      (some (("b/").toList))).2.1 (("b/").toList) rfl
      ⟨("http://b/y.m3u8").toList, by decide, by decide⟩
  rw [h]
  decide

/-- Claim C8: when the entry is found and its current URL equals the new
URL byte for byte, the patch performs no rewrite: the content is
returned unchanged with `changed = false`. -/
theorem patch_equal_url_no_change (content newUrl entryName pre g1 rest : List Char)
    (h : findMatch entryName content = some (pre, g1, newUrl, rest)) :
    update_m3u_file content newUrl entryName = (content, false) := by
  unfold update_m3u_file
  rw [h]
  simp

/-- Witness for `patch_equal_url_no_change` on the spec's own example. -/
theorem patch_equal_url_no_change_witness :
    update_m3u_file (("#EXTM3U\n\n#EXTINF:-1,Channel A\nhttps://old/x.m3u8\n").toList)
      (("https://old/x.m3u8").toList) (("Channel A").toList)
    = ((("#EXTM3U\n\n#EXTINF:-1,Channel A\nhttps://old/x.m3u8\n").toList), false) :=
  patch_equal_url_no_change _ _ _
    (("#EXTM3U\n\n").toList) (("#EXTINF:-1,Channel A\n").toList) ['\n'] (by decide)

/-- Claim C9: a session with no captured requests whose rendered content
embeds `"https://cdn.example.com/stream.m3u8?tok=1"` (quotes included)
discovers exactly that URL, quotes stripped and query retained, through
the static scan alone. -/
theorem static_scan_end_to_end :
    extract_m3u8_from_page []
      (NavOutcome.ok (("var s = \"https://cdn.example.com/stream.m3u8?tok=1\";").toList)) none
    = some (("https://cdn.example.com/stream.m3u8?tok=1").toList) := by decide

/-- Claim C10: the metadata line matches whenever it ends in a comma
followed by the entry name, so an entry whose display name is
`Breaking,News` is found and updated when the requested entry name is
just `News`. -/
theorem patch_matches_comma_suffix_name :
    update_m3u_file (("#EXTINF:-1,Breaking,News\nhttp://old/u.m3u8\n").toList)
      (("http://new/u.m3u8").toList) (("News").toList)
    = ((("#EXTINF:-1,Breaking,News\nhttp://new/u.m3u8\n").toList), true)
  ∧ (("Breaking,News").toList) ≠ (("News").toList) := by decide

/-- No pattern match is anchored at the empty text. -/
theorem patMatchAt_nil (name : List Char) : patMatchAt name [] = none := by
  simp [patMatchAt, extinfTag, List.isPrefixOf]

/-- A match anchored at `l` decomposes `l` as the two groups followed by
the rest, and consumes at least one character. -/
theorem patMatchAt_decomp {name l g1 g2 rest : List Char}
    (h : patMatchAt name l = some (g1, g2, rest)) :
    l = g1 ++ g2 ++ rest ∧ rest.length < l.length := by
  match l with
  | [] => rw [patMatchAt_nil] at h; cases h
  | c :: t =>
    unfold patMatchAt at h
    split at h
    · split at h
      · rename_i k hk
        split at h
        · rename_i g2len hg2
          simp only [Option.some.injEq, Prod.mk.injEq] at h
          obtain ⟨h1, h2, h3⟩ := h
          subst h1 h2 h3
          refine ⟨?_, ?_⟩
          · conv_lhs =>
              rw [← List.take_append_drop (8 + k + 1 + name.length + 1) (c :: t),
                ← List.take_append_drop g2len ((c :: t).drop (8 + k + 1 + name.length + 1))]
            rw [List.drop_drop, List.append_assoc]
          · simp only [List.length_drop]
            have : 0 < (c :: t).length := by simp
            omega
        · cases h
      · cases h
    · cases h

/-- The leftmost match found by `findMatch` decomposes the whole text. -/
theorem findMatch_decomp {name l pre g1 g2 rest : List Char}
    (h : findMatch name l = some (pre, g1, g2, rest)) :
    l = pre ++ g1 ++ g2 ++ rest := by
  induction l generalizing pre with
  | nil => cases h
  | cons c t ih =>
    unfold findMatch at h
    split at h
    · rename_i g1' g2' rest' hm
      simp only [Option.some.injEq, Prod.mk.injEq] at h
      obtain ⟨h0, h1, h2, h3⟩ := h
      subst h0 h1 h2 h3
      simpa using (patMatchAt_decomp hm).1
    · rename_i hm
      split at h
      · rename_i pre' g1' g2' rest' hf
        simp only [Option.some.injEq, Prod.mk.injEq] at h
        obtain ⟨h0, h1, h2, h3⟩ := h
        subst h0 h1 h2 h3
        simpa using ih hf
      · cases h

/-- The substitution fuel is irrelevant as soon as it covers the length of
the text. -/
theorem subAllAux_fuel (name nu : List Char) :
    ∀ f g l, l.length ≤ f → l.length ≤ g →
      subAllAux name nu f l = subAllAux name nu g l := by
  intro f
  induction f with
  | zero =>
    intro g l hf _
    have : l = [] := List.length_eq_zero.mp (Nat.le_zero.mp hf)
    subst this
    cases g <;> rfl
  | succ f ih =>
    intro g l hf hg
    match l with
    | [] => cases g <;> rfl
    | c :: t =>
      match g, hg with
      | g + 1, hg =>
        show subAllAux name nu (f + 1) (c :: t) = subAllAux name nu (g + 1) (c :: t)
        unfold subAllAux
        split
        · rename_i g1 g2 rest hm
          have hlt := (patMatchAt_decomp hm).2
          simp only [List.length_cons] at hlt hf hg
          rw [ih g rest (by omega) (by omega)]
        · rename_i hm
          simp only [List.length_cons] at hf hg
          rw [ih g t (by omega) (by omega)]

/-- Unfolding `subAll` over a match anchored at the head. -/
theorem subAll_cons_match {name nu l g1 g2 rest : List Char}
    (h : patMatchAt name l = some (g1, g2, rest)) :
    subAll name nu l = g1 ++ nu ++ subAll name nu rest := by
  match l with
  | [] => rw [patMatchAt_nil] at h; cases h
  | c :: t =>
    have hlt := (patMatchAt_decomp h).2
    show subAllAux name nu ((c :: t).length) (c :: t) = _
    simp only [List.length_cons]
    unfold subAllAux
    rw [h]
    dsimp only
    simp only [List.length_cons] at hlt
    rw [subAllAux_fuel name nu t.length rest.length rest (by omega) (by omega)]
    rfl

/-- Unfolding `subAll` over a position with no anchored match. -/
theorem subAll_cons_nomatch {name nu : List Char} {c : Char} {t : List Char}
    (h : patMatchAt name (c :: t) = none) :
    subAll name nu (c :: t) = c :: subAll name nu t := by
  show subAllAux name nu ((c :: t).length) (c :: t) = _
  simp only [List.length_cons]
  unfold subAllAux
  rw [h]
  rfl

/-- `re.sub` rewrites the leftmost match and then continues on the rest. -/
theorem subAll_of_findMatch {name nu l pre g1 g2 rest : List Char}
    (h : findMatch name l = some (pre, g1, g2, rest)) :
    subAll name nu l = pre ++ g1 ++ nu ++ subAll name nu rest := by
  induction l generalizing pre with
  | nil => cases h
  | cons c t ih =>
    unfold findMatch at h
    split at h
    · rename_i g1' g2' rest' hm
      simp only [Option.some.injEq, Prod.mk.injEq] at h
      obtain ⟨h0, h1, h2, h3⟩ := h
      subst h0 h1 h2 h3
      simpa using subAll_cons_match hm
    · rename_i hm
      split at h
      · rename_i pre' g1' g2' rest' hf
        simp only [Option.some.injEq, Prod.mk.injEq] at h
        obtain ⟨h0, h1, h2, h3⟩ := h
        subst h0 h1 h2 h3
        rw [subAll_cons_nomatch hm, ih hf]
        simp
      · cases h

/-- Where `re.search` finds nothing, `re.sub` changes nothing. -/
theorem subAll_of_no_match {name nu l : List Char}
    (h : findMatch name l = none) :
    subAll name nu l = l := by
  induction l with
  | nil => rfl
  | cons c t ih =>
    unfold findMatch at h
    split at h
    · cases h
    · rename_i hm
      split at h
      · cases h
      · rename_i hf
        rw [subAll_cons_nomatch hm, ih hf]

/-- Claim C2, amended: when the entry occurs exactly once (no further
match in the rest of the file), the patch rewrites that single URL line
to the new URL and returns `changed = true`; the input decomposes as
`pre ++ g1 ++ oldUrl ++ rest` and the output as
`pre ++ g1 ++ newUrl ++ rest`, so every byte outside the URL line —
the matched metadata line `g1`, everything before it and everything
after the URL line — is unchanged.  (With duplicate entries `re.sub`
rewrites every occurrence, which is what forces this restriction.)
The replacement URL must be backslash-free: a backslash would trigger
`re.sub`'s template expansion (or `re.error`) instead of appearing
literally. -/
theorem patch_single_occurrence_frame (content newUrl entryName pre g1 oldUrl rest : List Char)
    (_hbs : '\\' ∉ newUrl)
    (h : findMatch entryName content = some (pre, g1, oldUrl, rest))
    (hne : oldUrl ≠ newUrl)
    (hrest : findMatch entryName rest = none) :
    update_m3u_file content newUrl entryName = (pre ++ g1 ++ newUrl ++ rest, true)
  ∧ content = pre ++ g1 ++ oldUrl ++ rest := by
  refine ⟨?_, by simpa [List.append_assoc] using findMatch_decomp h⟩
  unfold update_m3u_file
  rw [h]
  dsimp only
  have hb : (oldUrl == newUrl) = false := by simpa using hne
  rw [hb]
  simp only [Bool.false_eq_true, if_false]
  rw [subAll_of_findMatch h, subAll_of_no_match hrest]

/-- Witness for `patch_single_occurrence_frame` on the spec's example. -/
theorem patch_single_occurrence_frame_witness :
    update_m3u_file (("#EXTM3U\n\n#EXTINF:-1,Channel A\nhttps://old/x.m3u8\n").toList)
      (("https://new/y.m3u8").toList) (("Channel A").toList)
    = ((("#EXTM3U\n\n#EXTINF:-1,Channel A\nhttps://new/y.m3u8\n").toList), true) := by
  have h := (patch_single_occurrence_frame
      (("#EXTM3U\n\n#EXTINF:-1,Channel A\nhttps://old/x.m3u8\n").toList)
      (("https://new/y.m3u8").toList) (("Channel A").toList)
      (("#EXTM3U\n\n").toList) (("#EXTINF:-1,Channel A\n").toList)
      (("https://old/x.m3u8").toList) ['\n']
      (by decide) (by decide) (by decide) (by decide)).1
  rw [h]
  decide

/-! ## Helper lemmas for the `urllib.parse` model -/

theorem dropWhile_all_eq {p : Char → Bool} {l : List Char} (h : ∀ c ∈ l, p c = true) :
    l.dropWhile p = [] := List.dropWhile_eq_nil_iff.mpr h

/-- Evaluation of `schemeSplit` when the text has no colon. -/
theorem schemeSplit_eval_no_colon {l : List Char} (hdw : l.dropWhile (· != ':') = []) :
    schemeSplit l = none := by
  unfold schemeSplit
  rw [hdw]
  cases l.takeWhile (· != ':') <;> rfl

/-- No colon, no scheme. -/
theorem schemeSplit_of_no_colon {l : List Char} (h : ∀ c ∈ l, c ≠ ':') :
    schemeSplit l = none := by
  have hb : ∀ c ∈ l, (c != ':') = true := fun c hc => by simpa using h c hc
  exact schemeSplit_eval_no_colon (dropWhile_all_eq hb)

/-- The element named by `head?` is a member. -/
theorem mem_of_head? {l : List Char} {c : Char} (h : l.head? = some c) : c ∈ l := by
  match l, h with
  | d :: t, h =>
    simp only [List.head?_cons, Option.some.injEq] at h
    subst h
    simp

end StreamUpdate
